import Mathlib

/-!
# Verification of the Task Manager API validation and error-normalization core

This file gives a shallow embedding, in Lean 4, of the validation middleware
(`src/middleware/validation.js`), the centralized error handler
(`src/middleware/errorHandler.js`, second document of the middleware sources),
and the task routes (`src/routes/tasks.js`, the unnamed route file wired with
the middleware), together with proofs and refutations of the specified
properties.

Strings are modelled as `List Char` (JS strings; the regexes involved are
ASCII-driven).  JS regex global replacement with the three patterns used by
`sanitizeString` is modelled by left-to-right scanners.  Each scanner is
written with an explicit fuel argument (`fuel := length of the input`) so that
all definitions are structurally recursive and hence computable by the kernel;
a fuel of at least the input length never runs out, since every recursive step
consumes at least one character of the input.
-/

namespace TaskManager

/-- JS `\w` character class: `[A-Za-z0-9_]`. -/
def isWordChar (c : Char) : Bool :=
  ('a' ≤ c && c ≤ 'z') || ('A' ≤ c && c ≤ 'Z') || ('0' ≤ c && c ≤ '9') || c = '_'

/-- Case-insensitive match of a subject character `c` against a pattern
character `p` (pattern letters are written in lowercase), as performed by a
JS regex with the `i` flag on ASCII patterns: `c` matches `p` iff `c = p` or
`c` is the uppercase form of a lowercase ASCII letter `p`. -/
def ciEq (p c : Char) : Bool :=
  c = p || ('a' ≤ p && p ≤ 'z' && c.toNat + 32 = p.toNat)

/-- `startsWithCI pat l`: `l` begins with the pattern `pat`, compared
case-insensitively by `ciEq`. -/
def startsWithCI : List Char → List Char → Bool
  | [], _ => true
  | _ :: _, [] => false
  | p :: ps, c :: cs => ciEq p c && startsWithCI ps cs

/-- The literal part `<script` of the script-block regex. -/
def scriptOpenPat : List Char := ['<', 's', 'c', 'r', 'i', 'p', 't']

/-- The closing literal `</script>` of the script-block regex. -/
def scriptClosePat : List Char := ['<', '/', 's', 'c', 'r', 'i', 'p', 't', '>']

/-- The scanning loop of `/<script\b[^<]*(?:(?!<\/script>)<[^<]*)*<\/script>/gi`
after the initial `<script\b[^<]*` part.  The position is always at a `<` (or
at the end).  If the closing tag `</script>` matches here, the loop stops and
the closing tag is consumed (9 characters).  Otherwise one loop iteration
`(?!<\/script>)<[^<]*` consumes the `<` and the following run of non-`<`
characters.  The regex is deterministic here: the negative lookahead forbids
the star from consuming a closing tag, so no backtracking can occur. -/
def goScriptTail : Nat → List Char → Option Nat
  | 0, _ => none
  | fuel + 1, l =>
    if startsWithCI scriptClosePat l then some 9
    else
      match l with
      | [] => none
      | c :: rest =>
        if c = '<' then
          let run := rest.takeWhile (fun x => x != '<')
          (goScriptTail fuel (rest.drop run.length)).map (fun n => n + 1 + run.length)
        else none

/-- The word-boundary test `\b` after the trailing `t` of `<script`: it holds
when the next character is a non-word character or the input ends. -/
def scriptBoundaryOk : List Char → Bool
  | [] => true
  | c :: _ => !isWordChar c

/-- The position right after `<script\b[^<]*` when matching at the head of
`l`: skip the 7 literal characters and the run of non-`<` characters. -/
def scriptLoopStart (l : List Char) : List Char :=
  (l.drop 7).drop ((l.drop 7).takeWhile (fun x => x != '<')).length

/-- Length of the match of
`/<script\b[^<]*(?:(?!<\/script>)<[^<]*)*<\/script>/i` at the head of `l`,
or `none` if the regex does not match at this position.  `\b` after the word
character `t` requires the next character to be a non-word character (or the
end of the input).  `[^<]*` deterministically consumes up to the next `<`. -/
def scriptMatchLen (l : List Char) : Option Nat :=
  if startsWithCI scriptOpenPat l then
    if scriptBoundaryOk (l.drop 7) then
      (goScriptTail (scriptLoopStart l).length (scriptLoopStart l)).map
        (fun n => n + 7 + ((l.drop 7).takeWhile (fun x => x != '<')).length)
    else none
  else none

/-- One global-replace pass
`str.replace(/<script\b[^<]*(?:(?!<\/script>)<[^<]*)*<\/script>/gi, '')`:
scan left to right; where the script-block regex matches, drop the match and
continue after it; otherwise keep the character. -/
def goScripts : Nat → List Char → List Char
  | 0, l => l
  | _ + 1, [] => []
  | fuel + 1, c :: rest =>
    match scriptMatchLen (c :: rest) with
    | some n => goScripts fuel ((c :: rest).drop n)
    | none => c :: goScripts fuel rest

def removeScripts (l : List Char) : List Char := goScripts l.length l

/-- One global-replace pass `sanitized.replace(/<[^>]+>/g, '')`: at a `<`,
the regex matches iff a nonempty run of non-`>` characters is followed by a
`>`; the match is the `<`, that run, and the closing `>`. -/
def goTags : Nat → List Char → List Char
  | 0, l => l
  | _ + 1, [] => []
  | fuel + 1, c :: rest =>
    if c = '<' then
      let mid := rest.takeWhile (fun x => x != '>')
      if 0 < mid.length ∧ mid.length < rest.length then
        goTags fuel (rest.drop (mid.length + 1))
      else c :: goTags fuel rest
    else c :: goTags fuel rest

def removeTags (l : List Char) : List Char := goTags l.length l

/-- One global-replace pass `sanitized.replace(/\$\w+/g, '')`: at a `$`, the
regex matches iff at least one word character follows; the match is the `$`
and the maximal run of word characters. -/
def goDollars : Nat → List Char → List Char
  | 0, l => l
  | _ + 1, [] => []
  | fuel + 1, c :: rest =>
    if c = '$' ∧ 0 < (rest.takeWhile isWordChar).length then
      goDollars fuel (rest.drop (rest.takeWhile isWordChar).length)
    else c :: goDollars fuel rest

def removeDollars (l : List Char) : List Char := goDollars l.length l

/-- `sanitizeString` from `src/middleware/validation.js` on string input: the
script-block pass, then the tag pass, then the `$`-operator pass.  (The
`typeof str !== 'string'` early return is handled at the `sanitizeObject`
level, where non-string values are dispatched elsewhere.) -/
def sanitizeString (s : List Char) : List Char :=
  removeDollars (removeTags (removeScripts s))

example : sanitizeString "hello".toList = "hello".toList := by decide
example : sanitizeString "<script>alert(1)</script>ok".toList = "ok".toList := by decide
example : sanitizeString "<b>bold</b>".toList = "bold".toList := by decide
example : sanitizeString "a $where b".toList = "a  b".toList := by decide
example : sanitizeString "<SCRIPT foo>x</ScRiPt>tail".toList = "tail".toList := by decide
example : sanitizeString "<scr<script>x</script>ipt>y".toList = "y".toList := by decide
example : sanitizeString "<script>".toList = "".toList := by decide
example : sanitizeString "<scriptx</script>".toList = "".toList := by decide

/-!
## The JS value model

Request bodies are JSON-like JS values.  Arrays and objects are given by
mutually inductive list types so that `sanitizeObject` and the validators are
structurally recursive (and hence computable by `decide`/`rfl`). -/

mutual

inductive JSValue where
  | vNull
  | vUndefined
  | vBool (b : Bool)
  | vNum (n : Int)
  | vStr (s : List Char)
  | vArr (elems : JSList)
  | vObj (fields : JSFields)
  deriving DecidableEq

inductive JSList where
  | nil
  | cons (head : JSValue) (tail : JSList)
  deriving DecidableEq

inductive JSFields where
  | nil
  | cons (key : List Char) (val : JSValue) (tail : JSFields)
  deriving DecidableEq

end

/-- Does a JS object key start with the `$` sentinel (`key.startsWith('$')`)? -/
def dollarKey : List Char → Bool
  | '$' :: _ => true
  | _ => false

/-- The decimal key string a JS `for...in` loop reports for array index `i`. -/
def natKey (i : Nat) : List Char := (Nat.repr i).data

mutual

/-- The body of `sanitizeObject`'s `for (const key in obj)` loop applied to a
single own property value `obj[key]`:
strings are passed through `sanitizeString`; values of `typeof 'object'`
(plain objects, arrays, and `null`) are passed through `sanitizeObject`
(inlined here: `null` returns `null`, arrays and objects rebuild a plain
object); every other value is copied unchanged. -/
def sanitizeMember : JSValue → JSValue
  | .vStr s => .vStr (sanitizeString s)
  | .vNull => .vNull
  | .vArr xs => .vObj (sanitizeElems 0 xs)
  | .vObj fs => .vObj (sanitizeFields fs)
  | v => v

/-- `sanitizeObject` iterating over an array: `for...in` enumerates the index
keys `"0"`, `"1"`, … in order, none of which starts with `$`, and the result
accumulates into the fresh plain object `sanitized = {}`. -/
def sanitizeElems : Nat → JSList → JSFields
  | _, .nil => .nil
  | i, .cons v tl => .cons (natKey i) (sanitizeMember v) (sanitizeElems (i + 1) tl)

/-- `sanitizeObject` iterating over a plain object's own enumerable keys in
order: keys starting with `$` are dropped (`continue`), the others are kept
with their sanitized values. -/
def sanitizeFields : JSFields → JSFields
  | .nil => .nil
  | .cons k v tl =>
    if dollarKey k then sanitizeFields tl
    else .cons k (sanitizeMember v) (sanitizeFields tl)

end

/-- `sanitizeObject` from `src/middleware/validation.js`: values that are not
of `typeof 'object'`, and `null`, are returned unchanged; arrays and plain
objects are rebuilt as plain objects whose entries are sanitized by the loop
body (`sanitizeMember`). -/
def sanitizeValue : JSValue → JSValue
  | .vArr xs => .vObj (sanitizeElems 0 xs)
  | .vObj fs => .vObj (sanitizeFields fs)
  | v => v

/-- Property access `obj[k]` / destructuring on a field list: the first
binding of `k`, or `undefined` when `k` is absent. -/
def lookupFields : JSFields → List Char → JSValue
  | .nil, _ => .vUndefined
  | .cons k' v tl, k => if k' = k then v else lookupFields tl k

/-- Property access / destructuring `const { k } = v` on a JS value: fields of
plain objects; `undefined` for the non-index keys the validators read on any
other value (arrays and primitives have no `title`/`status`/`description`
properties). -/
def lookupJS : JSValue → List Char → JSValue
  | .vObj fs, k => lookupFields fs k
  | _, _ => .vUndefined

/-- The keys of a field list, in order. -/
def fieldKeys : JSFields → List (List Char)
  | .nil => []
  | .cons k _ tl => k :: fieldKeys tl

/-- `Object.keys(v)` for the values the update validator can receive after
sanitization (a plain object), and `[]` for primitives. -/
def keysOf : JSValue → List (List Char)
  | .vObj fs => fieldKeys fs
  | _ => []

example : sanitizeValue (.vArr (.cons (.vNum 1) (.cons (.vStr "<b>a</b>".toList) .nil)))
    = .vObj (.cons "0".toList (.vNum 1) (.cons "1".toList (.vStr "a".toList) .nil)) := by decide

/-!
## Validators and error handler -/

/-- JS whitespace for `String.prototype.trim` (the WhiteSpace and
LineTerminator productions; ASCII part plus the common Unicode members). -/
def isJsSpace (c : Char) : Bool :=
  c = ' ' || c = '\t' || c = '\n' || c = '\r' ||
  c.toNat = 0xb || c.toNat = 0xc || c.toNat = 0xa0 || c.toNat = 0xfeff ||
  c.toNat = 0x2028 || c.toNat = 0x2029

/-- `str.trim()`: remove leading and trailing whitespace. -/
def jsTrim (l : List Char) : List Char :=
  ((l.dropWhile isJsSpace).reverse.dropWhile isJsSpace).reverse

/-- JS falsiness of the values the validators can meet (`!title`):
`undefined`, `null`, `false`, `0`, and the empty string are falsy. -/
def jsFalsy : JSValue → Bool
  | .vUndefined => true
  | .vNull => true
  | .vBool b => !b
  | .vNum n => n = 0
  | .vStr s => s.isEmpty
  | _ => false

def titleKey : List Char := "title".toList
def statusKey : List Char := "status".toList
def descriptionKey : List Char := "description".toList

def titleRequiredMsg : List Char := "Title is required and must be a non-empty string".toList
def statusEnumMsg : List Char := "Status must be either 'pending' or 'completed'".toList
def descriptionTypeMsg : List Char := "Description must be a string".toList
def titleUpdateMsg : List Char := "Title must be a non-empty string".toList
def atLeastOneFieldMsg : List Char :=
  "At least one valid field (title, status, or description) must be provided".toList
def validationFailedMsg : List Char := "Validation failed".toList
def invalidIdMsg : List Char := "Invalid task ID format".toList

/-- `!title || typeof title !== 'string' || title.trim() === ''`. -/
def titleBad (t : JSValue) : Bool :=
  jsFalsy t ||
    (match t with
     | .vStr s => (jsTrim s).isEmpty
     | _ => true)

/-- `status !== undefined && (typeof status !== 'string' ||
!['pending', 'completed'].includes(status))`. -/
def statusBad (st : JSValue) : Bool :=
  match st with
  | .vUndefined => false
  | .vStr s => !(s = "pending".toList || s = "completed".toList)
  | _ => true

/-- `description !== undefined && typeof description !== 'string'`. -/
def descriptionBad (d : JSValue) : Bool :=
  match d with
  | .vUndefined => false
  | .vStr _ => false
  | _ => true

/-- `title !== undefined && (typeof title !== 'string' || title.trim() === '')`
(the update rule for `title`). -/
def titleUpdateBad (t : JSValue) : Bool :=
  match t with
  | .vUndefined => false
  | .vStr s => (jsTrim s).isEmpty
  | _ => true

/-- The `errors` array accumulated by `validateTaskInput`, in push order. -/
def inputErrors (sb : JSValue) : List (List Char) :=
  (if titleBad (lookupJS sb titleKey) then [titleRequiredMsg] else []) ++
  (if statusBad (lookupJS sb statusKey) then [statusEnumMsg] else []) ++
  (if descriptionBad (lookupJS sb descriptionKey) then [descriptionTypeMsg] else [])

/-- `hasValidField = providedFields.some(f => validFields.includes(f))` where
`providedFields = Object.keys(req.body)` on the sanitized body. -/
def hasValidField (sb : JSValue) : Bool :=
  (keysOf sb).any (fun k => k = titleKey || k = statusKey || k = descriptionKey)

/-- The `errors` array accumulated by `validateTaskUpdate`, in push order. -/
def updateErrors (sb : JSValue) : List (List Char) :=
  (if !hasValidField sb || (keysOf sb).isEmpty then [atLeastOneFieldMsg] else []) ++
  (if titleUpdateBad (lookupJS sb titleKey) then [titleUpdateMsg] else []) ++
  (if statusBad (lookupJS sb statusKey) then [statusEnumMsg] else []) ++
  (if descriptionBad (lookupJS sb descriptionKey) then [descriptionTypeMsg] else [])

/-- A JSON response body, as built by the middleware and routes.  `errBody`
carries the `error` string, the optional `details` array, and the optional
`stack` field (development mode only). -/
inductive JsonBody where
  | taskVal (v : JSValue)
  | taskList (vs : List JSValue)
  | message (m : List Char)
  | errBody (error : List Char) (details : Option (List (List Char)))
      (stack : Option (List Char))
  deriving DecidableEq

structure HttpResponse where
  status : Nat
  body : JsonBody
  deriving DecidableEq

/-- What a validation middleware does with a request: respond immediately
(`reject`), or call `next()` with `req.body` replaced by the sanitized body
(`proceed`). -/
inductive MWResult where
  | reject (response : HttpResponse)
  | proceed (newBody : JSValue)
  deriving DecidableEq

def MWResult.isProceed : MWResult → Bool
  | .proceed _ => true
  | .reject _ => false

/-- `validateTaskInput`: sanitize `req.body`, accumulate the field errors,
and either respond `400 {error: 'Validation failed', details}` or continue
with the sanitized body. -/
def validateTaskInput (body : JSValue) : MWResult :=
  if (inputErrors (sanitizeValue body)).isEmpty then .proceed (sanitizeValue body)
  else
    .reject
      { status := 400,
        body := .errBody validationFailedMsg (some (inputErrors (sanitizeValue body))) none }

/-- `validateTaskUpdate`: sanitize `req.body`, require at least one recognized
field, validate each provided field, and either respond 400 or continue. -/
def validateTaskUpdate (body : JSValue) : MWResult :=
  if (updateErrors (sanitizeValue body)).isEmpty then .proceed (sanitizeValue body)
  else
    .reject
      { status := 400,
        body := .errBody validationFailedMsg (some (updateErrors (sanitizeValue body))) none }

/-- Hexadecimal digit, as in bson's `checkForHexRegExp` (`[0-9a-fA-F]`). -/
def isHexDigit (c : Char) : Bool :=
  ('0' ≤ c && c ≤ '9') || ('a' ≤ c && c ≤ 'f') || ('A' ≤ c && c ≤ 'F')

/-- `mongoose.Types.ObjectId.isValid` on a string argument: true for a
24-character hexadecimal string, and also for any 12-character string of
single-byte characters (interpreted as 12 raw bytes). -/
def objectIdIsValidStr (id : List Char) : Bool :=
  (id.length = 24 && id.all isHexDigit) ||
  (id.length = 12 && id.all (fun c => c.toNat < 128))

/-- A 24-character hexadecimal string — the store identifier format named by
the specification. -/
def is24Hex (id : List Char) : Bool :=
  id.length = 24 && id.all isHexDigit

/-- `validateObjectId`: respond `400 {error: 'Invalid task ID format'}` when
`mongoose.Types.ObjectId.isValid(id)` is false, otherwise call `next()`
(modelled as `none`). -/
def validateObjectId (id : List Char) : Option HttpResponse :=
  if objectIdIsValidStr id then none
  else some { status := 400, body := .errBody invalidIdMsg none none }

/-- A JS error object as the error handler inspects it.  `code`, `keyPattern`
and `statusCode` are `Option`s because the corresponding properties may be
absent (`undefined`); `keyPattern` is abstracted to its key list
(`Object.keys(err.keyPattern)` in insertion order); `errors` is abstracted to
the list of per-field messages (`Object.values(err.errors).map(e => e.message)`). -/
structure JsError where
  name : List Char
  message : List Char
  stack : List Char
  code : Option Int
  keyPattern : Option (List (List Char))
  statusCode : Option Nat
  errors : List (List Char)
  deriving DecidableEq

def developmentEnv : List Char := "development".toList
def productionEnv : List Char := "production".toList
def unavailableMsg : List Char := "Service temporarily unavailable".toList
def internalErrorMsg : List Char := "Internal server error".toList

/-- `Object.keys(err.keyPattern)[0]` interpolated into a template string:
the first key, or the string `"undefined"` for an empty object. -/
def firstKeyString : List (List Char) → List Char
  | [] => "undefined".toList
  | k :: _ => k

/-- The generic tail of the error handler: a custom `statusCode` property
(truthy, i.e. present and nonzero) takes precedence, then a truthy (nonempty)
`message`, then the 500 default. -/
def errorHandlerGeneric (err : JsError) : Nat × List Char × Option (List (List Char)) :=
  match err.statusCode with
  | some sc =>
    if sc ≠ 0 then (sc, err.message, none)
    else if !err.message.isEmpty then (500, err.message, none)
    else (500, internalErrorMsg, none)
  | none =>
    if !err.message.isEmpty then (500, err.message, none)
    else (500, internalErrorMsg, none)

/-- The branch cascade of `errorHandler` (`src/middleware/errorHandler.js`),
computing status code, `error` string and optional `details`.  The duplicate
key branch reads `Object.keys(err.keyPattern)`; when `err.keyPattern` is
absent this throws a `TypeError` inside the handler, modelled as `none`. -/
def errorHandlerCore (err : JsError) : Option (Nat × List Char × Option (List (List Char))) :=
  if err.name = "ValidationError".toList then
    some (400, validationFailedMsg, some err.errors)
  else if err.name = "CastError".toList then
    some (400, "Invalid ID format".toList, none)
  else if err.code = some 11000 then
    match err.keyPattern with
    | none => none
    | some ks => some (400, "Duplicate value for field: ".toList ++ firstKeyString ks, none)
  else if err.name = "MongoNetworkError".toList ∨ err.name = "MongoTimeoutError".toList then
    some (503, unavailableMsg, none)
  else some (errorHandlerGeneric err)

/-- `errorHandler`: map the failure to `{statusCode, body}`; in development
mode (`NODE_ENV === 'development'`) the body additionally carries the stack
trace, otherwise the `stack` field is absent. -/
def errorHandler (nodeEnv : List Char) (err : JsError) : Option HttpResponse :=
  (errorHandlerCore err).map (fun r =>
    { status := r.1,
      body := .errBody r.2.1 r.2.2
        (if nodeEnv = developmentEnv then some err.stack else none) })

/-!
## Routes (`src/routes/tasks.js`) and the Task store -/

/-- Outcome of an awaited persistence call inside a route handler: a value, or
a thrown/rejected error. -/
inductive StoreResult (α : Type) where
  | ok (val : α)
  | thrown (err : JsError)

/-- A persisted Task record. -/
structure Task where
  id : List Char
  title : List Char
  description : Option (List Char)
  status : List Char
  createdAt : Int
  deriving DecidableEq

/-- Modelled from the spec: the Task persistence model (`models/task.js`) is
required by the routes but is not among the source files.  Per the
specification's lifecycle rule, an update applied through the store
(`findByIdAndUpdate` with `runValidators`) may change `title`, `description`
and `status` from the recognized fields of the (sanitized) update payload,
while `createdAt` and `id` are immutable. -/
def applyTaskUpdate (t : Task) (sb : JSValue) : Task :=
  { id := t.id
    createdAt := t.createdAt
    title := match lookupJS sb titleKey with
      | .vStr s => s
      | _ => t.title
    description := match lookupJS sb descriptionKey with
      | .vStr s => some s
      | _ => t.description
    status := match lookupJS sb statusKey with
      | .vStr s => s
      | _ => t.status }

/-- `POST /tasks` (`router.post('/', validateTaskInput, handler)`): on
validation failure the middleware responds; otherwise the handler awaits
`Task.create` inside `try/catch` and answers `201` with the task or `400`
with `{error: err.message}`.  A thrown store error is **not** forwarded to
the error handler. -/
def postTasksRoute (body : JSValue) (create : JSValue → StoreResult JSValue) : HttpResponse :=
  match validateTaskInput body with
  | .reject r => r
  | .proceed sb =>
    match create sb with
    | .ok t => { status := 201, body := .taskVal t }
    | .thrown e => { status := 400, body := .errBody e.message none none }

/-- `GET /tasks` (`router.get('/', asyncHandler(handler))`): the only route
wrapped in `asyncHandler`, so a rejected `Task.find()` promise is passed to
`next` and reaches the error handler. -/
def getAllTasksRoute (nodeEnv : List Char) (find : StoreResult (List JSValue)) :
    Option HttpResponse :=
  match find with
  | .ok ts => some { status := 200, body := .taskList ts }
  | .thrown e => errorHandler nodeEnv e

/-- `GET /tasks/:id` (`router.get('/:id', validateObjectId, handler)`): the id
validator may respond first; then `Task.findById` inside `try/catch` yields
`200`, `404 {error: 'Task not found'}`, or `400 {error: err.message}`. -/
def getTaskByIdRoute (id : List Char) (findById : StoreResult (Option JSValue)) :
    HttpResponse :=
  match validateObjectId id with
  | some r => r
  | none =>
    match findById with
    | .ok none => { status := 404, body := .errBody "Task not found".toList none none }
    | .ok (some t) => { status := 200, body := .taskVal t }
    | .thrown e => { status := 400, body := .errBody e.message none none }

/-- `PUT /tasks/:id` (`router.put('/:id', validateObjectId, validateTaskUpdate,
handler)`): both validators may respond first; then `Task.findByIdAndUpdate`
with the sanitized body inside `try/catch`. -/
def putTaskRoute (id : List Char) (body : JSValue)
    (update : JSValue → StoreResult (Option JSValue)) : HttpResponse :=
  match validateObjectId id with
  | some r => r
  | none =>
    match validateTaskUpdate body with
    | .reject r => r
    | .proceed sb =>
      match update sb with
      | .ok none => { status := 404, body := .errBody "Task not found".toList none none }
      | .ok (some t) => { status := 200, body := .taskVal t }
      | .thrown e => { status := 400, body := .errBody e.message none none }

/-- `DELETE /tasks/:id` (`router.delete('/:id', validateObjectId, handler)`):
`Task.findByIdAndDelete` inside `try/catch`. -/
def deleteTaskRoute (id : List Char) (del : StoreResult (Option JSValue)) : HttpResponse :=
  match validateObjectId id with
  | some r => r
  | none =>
    match del with
    | .ok none => { status := 404, body := .errBody "Task not found".toList none none }
    | .ok (some _) => { status := 200, body := .message "Task deleted".toList }
    | .thrown e => { status := 400, body := .errBody e.message none none }

/-!
## Predicates used by the statements -/

/-- The pattern `/<[^>]+>/` matches at the head of `l`. -/
def TagMatchAt : List Char → Prop
  | [] => False
  | c :: rest =>
    c = '<' ∧ 0 < (rest.takeWhile (fun x => x != '>')).length ∧
      (rest.takeWhile (fun x => x != '>')).length < rest.length

/-- The pattern `/\$\w+/` matches at the head of `l`. -/
def DollarMatchAt : List Char → Prop
  | [] => False
  | c :: rest => c = '$' ∧ 0 < (rest.takeWhile isWordChar).length

/-- No suffix of `s` begins a `/<[^>]+>/` match: `s` is a fixed point of the
tag-removal pass. -/
def NoTagMatch (s : List Char) : Prop := ∀ t, t <:+ s → ¬ TagMatchAt t

/-- No suffix of `s` begins a `/\$\w+/` match. -/
def NoDollarMatch (s : List Char) : Prop := ∀ t, t <:+ s → ¬ DollarMatchAt t

/-- `l` starts with `pat` (exact character equality). -/
def listStartsWith : List Char → List Char → Bool
  | [], _ => true
  | _ :: _, [] => false
  | p :: ps, c :: cs => p = c && listStartsWith ps cs

/-- `pat` occurs as a contiguous substring of `l`. -/
def hasSubstr (pat : List Char) : List Char → Bool
  | [] => listStartsWith pat []
  | c :: rest => listStartsWith pat (c :: rest) || hasSubstr pat rest

def scriptOpenTok : List Char := "<script>".toList
def scriptCloseTok : List Char := "</script>".toList

/-- The title conditions named by the specification for creation payloads:
the `title` property is absent (`undefined`), not a string, or a string that
is empty after trimming. -/
def TitleProblem (t : JSValue) : Prop :=
  t = .vUndefined ∨ (∀ s, t ≠ .vStr s) ∨ (∃ s, t = .vStr s ∧ jsTrim s = [])

def JSValue.isArr : JSValue → Bool
  | .vArr _ => true
  | _ => false

def JSValue.isObj : JSValue → Bool
  | .vObj _ => true
  | _ => false

/-!
## Concrete inputs used by witnesses and counterexamples -/

/-- A store connectivity failure as raised by the MongoDB driver. -/
def netErr : JsError :=
  { name := "MongoNetworkError".toList, message := "connection lost".toList,
    stack := "trace".toList, code := none, keyPattern := none,
    statusCode := none, errors := [] }

/-- A duplicate-key error whose `keyPattern` property is absent. -/
def dupNoKeyPatternErr : JsError :=
  { name := "MongoServerError".toList, message := "E11000 duplicate key error".toList,
    stack := "trace".toList, code := some 11000, keyPattern := none,
    statusCode := none, errors := [] }

/-- A creation payload `{title: "Buy milk"}` that passes both validators. -/
def okTitleBody : JSValue := .vObj (.cons titleKey (.vStr "Buy milk".toList) .nil)

/-- A well-formed 24-character hexadecimal identifier. -/
def hex24Id : List Char := "507f1f77bcf86cd799439011".toList

/-- A 12-character ASCII identifier: not 24-character hexadecimal, yet
accepted by `mongoose.Types.ObjectId.isValid`. -/
def twelveCharId : List Char := "aaaaaaaaaaaa".toList

/-- A persisted sample task. -/
def sampleTask : Task :=
  { id := hex24Id, title := "Old title".toList, description := none,
    status := "pending".toList, createdAt := 1700000000 }

/-- An update payload `{title: "New title", createdAt: 999}` carrying an
extra `createdAt` key alongside a recognized field. -/
def putBody : JSValue :=
  .vObj (.cons titleKey (.vStr "New title".toList)
    (.cons "createdAt".toList (.vNum 999) .nil))

/-!
## Basic lemmas about the scanners -/

theorem goTags_nil (fuel : Nat) : goTags fuel [] = [] := by cases fuel <;> rfl

theorem goDollars_nil (fuel : Nat) : goDollars fuel [] = [] := by cases fuel <;> rfl

theorem goScripts_nil (fuel : Nat) : goScripts fuel [] = [] := by cases fuel <;> rfl

theorem takeWhile_length_lt_of_mem {p : Char → Bool} {l : List Char} {a : Char}
    (ha : a ∈ l) (hpa : p a = false) : (l.takeWhile p).length < l.length := by
  induction l with
  | nil => cases ha
  | cons b tl ih =>
    by_cases hb : p b
    · have hatl : a ∈ tl := by
        rcases List.mem_cons.mp ha with h | h
        · subst h; rw [hpa] at hb; cases hb
        · exact h
      simp only [List.takeWhile_cons, hb, if_true, List.length_cons]
      exact Nat.succ_lt_succ (ih hatl)
    · simp only [List.takeWhile_cons, hb, if_false, List.length_cons, List.length_nil]
      exact Nat.succ_pos _

theorem drop_length_takeWhile (p : Char → Bool) (l : List Char) :
    l.drop (l.takeWhile p).length = l.dropWhile p := by
  induction l with
  | nil => rfl
  | cons a l ih =>
    by_cases h : p a <;>
      simp [List.takeWhile_cons, List.dropWhile_cons, h, ih]

theorem head?_dropWhile_false {p : Char → Bool} {l : List Char} {c : Char}
    (h : (l.dropWhile p).head? = some c) : p c = false := by
  induction l with
  | nil => cases h
  | cons a tl ih =>
    by_cases ha : p a
    · rw [List.dropWhile_cons, if_pos ha] at h; exact ih h
    · rw [List.dropWhile_cons, if_neg ha] at h
      simp only [List.head?_cons, Option.some.injEq] at h
      subst h
      exact Bool.eq_false_iff.mpr ha

theorem mem_goTags (fuel : Nat) : ∀ (l : List Char) (a : Char), a ∈ goTags fuel l → a ∈ l := by
  induction fuel with
  | zero => intro l a h; simpa [goTags] using h
  | succ fuel ih =>
    intro l a h
    match l with
    | [] => simp [goTags] at h
    | c :: rest =>
      by_cases h1 : c = '<'
      · by_cases h2 : 0 < (rest.takeWhile (fun x => x != '>')).length ∧
            (rest.takeWhile (fun x => x != '>')).length < rest.length
        · rw [goTags, if_pos h1, if_pos h2] at h
          have := ih _ _ h
          exact List.mem_cons_of_mem _ ((List.drop_sublist _ _).mem this)
        · rw [goTags, if_pos h1, if_neg h2] at h
          rcases List.mem_cons.mp h with h | h
          · exact List.mem_cons.mpr (Or.inl h)
          · exact List.mem_cons_of_mem _ (ih _ _ h)
      · rw [goTags, if_neg h1] at h
        rcases List.mem_cons.mp h with h | h
        · exact List.mem_cons.mpr (Or.inl h)
        · exact List.mem_cons_of_mem _ (ih _ _ h)

theorem mem_goDollars (fuel : Nat) : ∀ (l : List Char) (a : Char),
    a ∈ goDollars fuel l → a ∈ l := by
  induction fuel with
  | zero => intro l a h; simpa [goDollars] using h
  | succ fuel ih =>
    intro l a h
    match l with
    | [] => simp [goDollars] at h
    | c :: rest =>
      by_cases h1 : c = '$' ∧ 0 < (rest.takeWhile isWordChar).length
      · rw [goDollars, if_pos h1] at h
        have := ih _ _ h
        exact List.mem_cons_of_mem _ ((List.drop_sublist _ _).mem this)
      · rw [goDollars, if_neg h1] at h
        rcases List.mem_cons.mp h with h | h
        · exact List.mem_cons.mpr (Or.inl h)
        · exact List.mem_cons_of_mem _ (ih _ _ h)

theorem mem_goScripts (fuel : Nat) : ∀ (l : List Char) (a : Char),
    a ∈ goScripts fuel l → a ∈ l := by
  induction fuel with
  | zero => intro l a h; simpa [goScripts] using h
  | succ fuel ih =>
    intro l a h
    match l with
    | [] => simp [goScripts] at h
    | c :: rest =>
      cases hm : scriptMatchLen (c :: rest) with
      | some n =>
        rw [goScripts, hm] at h
        exact (List.drop_sublist _ _).mem (ih _ _ h)
      | none =>
        rw [goScripts, hm] at h
        rcases List.mem_cons.mp h with h | h
        · exact List.mem_cons.mpr (Or.inl h)
        · exact List.mem_cons_of_mem _ (ih _ _ h)

theorem mem_sanitizeString {s : List Char} {a : Char} (h : a ∈ sanitizeString s) : a ∈ s :=
  mem_goScripts _ _ _ (mem_goTags _ _ _ (mem_goDollars _ _ _ h))

/-!
## Fixed-point invariants of the replacement passes

Every `<` in the output of the tag pass is immediately followed by `>` or is
followed by no `>` at all, so no suffix of the output begins a `/<[^>]+>/`
match (`NoTagMatch`); this is preserved by the `$` pass and rules out any
later `<script>`-shaped content.  Likewise no suffix of the `$`-pass output
begins a `/\$\w+/` match. -/

theorem noTagMatch_nil : NoTagMatch [] := by
  intro t ht
  rw [List.suffix_nil.mp ht]
  exact fun h => h

theorem noDollarMatch_nil : NoDollarMatch [] := by
  intro t ht
  rw [List.suffix_nil.mp ht]
  exact fun h => h

theorem noTagMatch_suffix {s t : List Char} (h : NoTagMatch s) (hs : t <:+ s) :
    NoTagMatch t :=
  fun u hu => h u (hu.trans hs)

theorem noDollarMatch_suffix {s t : List Char} (h : NoDollarMatch s) (hs : t <:+ s) :
    NoDollarMatch t :=
  fun u hu => h u (hu.trans hs)

theorem noTagMatch_cons {c : Char} {T : List Char} (h1 : ¬ TagMatchAt (c :: T))
    (h2 : NoTagMatch T) : NoTagMatch (c :: T) := by
  intro t ht
  rcases List.suffix_cons_iff.mp ht with rfl | ht'
  · exact h1
  · exact h2 t ht'

theorem noDollarMatch_cons {c : Char} {T : List Char} (h1 : ¬ DollarMatchAt (c :: T))
    (h2 : NoDollarMatch T) : NoDollarMatch (c :: T) := by
  intro t ht
  rcases List.suffix_cons_iff.mp ht with rfl | ht'
  · exact h1
  · exact h2 t ht'

/-- Transfer of head safety: if no tag match starts at `'<' :: rest` and `T`
keeps only characters of `rest`, keeps a leading `>`, and is empty when
`rest` is, then no tag match starts at `'<' :: T` either. -/
theorem tagMatchAt_cons_transfer {c : Char} {rest T : List Char}
    (horig : ¬ TagMatchAt (c :: rest))
    (hmem : ∀ a, a ∈ T → a ∈ rest)
    (hhead : ∀ r', rest = '>' :: r' → ∃ T', T = '>' :: T')
    (hnil : rest = [] → T = []) :
    ¬ TagMatchAt (c :: T) := by
  intro hT
  simp only [TagMatchAt] at hT horig
  obtain ⟨hc, hpos, hlt⟩ := hT
  subst hc
  match rest with
  | [] =>
    rw [hnil rfl] at hpos
    simp at hpos
  | r0 :: rtl =>
    by_cases hr0 : r0 = '>'
    · obtain ⟨T', hT'⟩ := hhead rtl (by rw [hr0])
      rw [hT'] at hpos
      simp [List.takeWhile_cons] at hpos
    · have h1 : 0 < ((r0 :: rtl).takeWhile (fun x => x != '>')).length := by
        simp [List.takeWhile_cons, hr0]
      have h2 : ¬ (((r0 :: rtl).takeWhile (fun x => x != '>')).length < (r0 :: rtl).length) :=
        fun hlt' => horig ⟨rfl, h1, hlt'⟩
      have heq : (r0 :: rtl).takeWhile (fun x => x != '>') = r0 :: rtl :=
        (List.takeWhile_prefix _).eq_of_length
          (Nat.le_antisymm (List.takeWhile_prefix _).length_le (Nat.le_of_not_lt h2))
      have hTall : ∀ a ∈ T, (a != '>') = true := by
        intro a ha
        have hmem' : a ∈ (r0 :: rtl).takeWhile (fun x => x != '>') := by
          rw [heq]; exact hmem a ha
        have h3 := List.mem_takeWhile_imp hmem'
        exact h3
      rw [List.takeWhile_eq_self_iff.mpr hTall] at hlt
      exact Nat.lt_irrefl _ hlt

/-- The output of the tag-removal pass admits no further `/<[^>]+>/` match. -/
theorem noTagMatch_goTags : ∀ (fuel : Nat) (l : List Char), l.length ≤ fuel →
    NoTagMatch (goTags fuel l) := by
  intro fuel
  induction fuel with
  | zero =>
    intro l hl
    have : l = [] := List.length_eq_zero.mp (Nat.le_zero.mp hl)
    subst this
    exact noTagMatch_nil
  | succ fuel ih =>
    intro l hl
    match l with
    | [] => rw [goTags_nil]; exact noTagMatch_nil
    | c :: rest =>
      have hrest : rest.length ≤ fuel := by
        simp only [List.length_cons] at hl
        exact Nat.succ_le_succ_iff.mp hl
      by_cases h1 : c = '<'
      · by_cases h2 : 0 < (rest.takeWhile (fun x => x != '>')).length ∧
            (rest.takeWhile (fun x => x != '>')).length < rest.length
        · rw [goTags, if_pos h1, if_pos h2]
          apply ih
          calc (rest.drop ((rest.takeWhile (fun x => x != '>')).length + 1)).length
              ≤ rest.length := by simp [List.length_drop]
            _ ≤ fuel := hrest
        · rw [goTags, if_pos h1, if_neg h2]
          subst h1
          refine noTagMatch_cons ?_ (ih rest hrest)
          refine tagMatchAt_cons_transfer ?_ (fun a ha => mem_goTags fuel rest a ha) ?_ ?_
          · intro hm
            simp only [TagMatchAt] at hm
            exact h2 ⟨hm.2.1, hm.2.2⟩
          · intro r' hr
            subst hr
            match fuel, hrest with
            | f + 1, _ =>
              rw [goTags, if_neg (by decide)]
              exact ⟨_, rfl⟩
          · intro hr; rw [hr]; exact goTags_nil fuel
      · rw [goTags, if_neg h1]
        refine noTagMatch_cons ?_ (ih rest hrest)
        intro hm
        simp only [TagMatchAt] at hm
        exact h1 hm.1

/-- The `$` pass preserves the tag-pass fixed-point invariant: it removes only
`$` and word characters, so it cannot create a `/<[^>]+>/` match. -/
theorem noTagMatch_goDollars : ∀ (fuel : Nat) (l : List Char), l.length ≤ fuel →
    NoTagMatch l → NoTagMatch (goDollars fuel l) := by
  intro fuel
  induction fuel with
  | zero =>
    intro l hl _
    have : l = [] := List.length_eq_zero.mp (Nat.le_zero.mp hl)
    subst this
    exact noTagMatch_nil
  | succ fuel ih =>
    intro l hl h
    match l with
    | [] => rw [goDollars_nil]; exact noTagMatch_nil
    | c :: rest =>
      have hrest : rest.length ≤ fuel := by
        simp only [List.length_cons] at hl
        exact Nat.succ_le_succ_iff.mp hl
      have hrestNT : NoTagMatch rest := noTagMatch_suffix h (List.suffix_cons c rest)
      by_cases hm : c = '$' ∧ 0 < (rest.takeWhile isWordChar).length
      · rw [goDollars, if_pos hm]
        refine ih _ ?_ (noTagMatch_suffix hrestNT (List.drop_suffix _ _))
        calc (rest.drop (rest.takeWhile isWordChar).length).length
            ≤ rest.length := by simp [List.length_drop]
          _ ≤ fuel := hrest
      · rw [goDollars, if_neg hm]
        refine noTagMatch_cons ?_ (ih rest hrest hrestNT)
        refine tagMatchAt_cons_transfer (h (c :: rest) List.suffix_rfl)
          (fun a ha => mem_goDollars fuel rest a ha) ?_ ?_
        · intro r' hr
          subst hr
          match fuel, hrest with
          | f + 1, _ =>
            rw [goDollars, if_neg (by simp)]
            exact ⟨_, rfl⟩
        · intro hr; rw [hr]; exact goDollars_nil fuel

/-- If the input's head is not a word character, neither is the head of the
`$`-pass output (a removed `$`-token is followed by a non-word character, by
maximality of `\w+`). -/
theorem goDollars_head_not_word : ∀ (fuel : Nat) (l : List Char), l.length ≤ fuel →
    (∀ c r, l = c :: r → isWordChar c = false) →
    ∀ c r, goDollars fuel l = c :: r → isWordChar c = false := by
  intro fuel
  induction fuel with
  | zero =>
    intro l _ h c r hcr
    exact h c r hcr
  | succ fuel ih =>
    intro l hl h
    match l with
    | [] =>
      rw [goDollars_nil]
      intro c r hcr
      exact absurd hcr (by simp)
    | c0 :: rest =>
      have hrest : rest.length ≤ fuel := by
        simp only [List.length_cons] at hl
        exact Nat.succ_le_succ_iff.mp hl
      by_cases hm : c0 = '$' ∧ 0 < (rest.takeWhile isWordChar).length
      · rw [goDollars, if_pos hm]
        refine ih _ ?_ ?_
        · calc (rest.drop (rest.takeWhile isWordChar).length).length
              ≤ rest.length := by simp [List.length_drop]
            _ ≤ fuel := hrest
        · intro c r hcr
          rw [drop_length_takeWhile] at hcr
          have : (rest.dropWhile isWordChar).head? = some c := by rw [hcr]; rfl
          exact head?_dropWhile_false this
      · rw [goDollars, if_neg hm]
        intro c r hcr
        injection hcr with h1 _
        exact h1 ▸ h c0 rest rfl

/-- The output of the `$` pass admits no further `/\$\w+/` match. -/
theorem noDollarMatch_goDollars : ∀ (fuel : Nat) (l : List Char), l.length ≤ fuel →
    NoDollarMatch (goDollars fuel l) := by
  intro fuel
  induction fuel with
  | zero =>
    intro l hl
    have : l = [] := List.length_eq_zero.mp (Nat.le_zero.mp hl)
    subst this
    exact noDollarMatch_nil
  | succ fuel ih =>
    intro l hl
    match l with
    | [] => rw [goDollars_nil]; exact noDollarMatch_nil
    | c :: rest =>
      have hrest : rest.length ≤ fuel := by
        simp only [List.length_cons] at hl
        exact Nat.succ_le_succ_iff.mp hl
      by_cases hm : c = '$' ∧ 0 < (rest.takeWhile isWordChar).length
      · rw [goDollars, if_pos hm]
        refine ih _ ?_
        calc (rest.drop (rest.takeWhile isWordChar).length).length
            ≤ rest.length := by simp [List.length_drop]
          _ ≤ fuel := hrest
      · rw [goDollars, if_neg hm]
        refine noDollarMatch_cons ?_ (ih rest hrest)
        intro hd
        simp only [DollarMatchAt] at hd
        obtain ⟨rfl, hpos⟩ := hd
        have hw : (rest.takeWhile isWordChar).length = 0 := by
          by_contra hw'
          exact hm ⟨rfl, Nat.pos_of_ne_zero hw'⟩
        have hheadrest : ∀ c' r', rest = c' :: r' → isWordChar c' = false := by
          intro c' r' hr
          subst hr
          rw [List.takeWhile_cons] at hw
          by_cases hc' : isWordChar c'
          · rw [if_pos hc'] at hw; simp at hw
          · exact Bool.eq_false_iff.mpr hc'
        cases hT : goDollars fuel rest with
        | nil => rw [hT] at hpos; simp at hpos
        | cons t0 ttl =>
          have ht0 : isWordChar t0 = false :=
            goDollars_head_not_word fuel rest hrest hheadrest t0 ttl hT
          rw [hT, List.takeWhile_cons, ht0] at hpos
          simp at hpos

/-!
## Identity of the passes on match-free strings -/

theorem goTags_of_noMatch : ∀ (fuel : Nat) (l : List Char), NoTagMatch l →
    goTags fuel l = l := by
  intro fuel
  induction fuel with
  | zero => intro l _; rfl
  | succ fuel ih =>
    intro l h
    match l with
    | [] => exact goTags_nil _
    | c :: rest =>
      have hrec : goTags fuel rest = rest :=
        ih rest (noTagMatch_suffix h (List.suffix_cons c rest))
      by_cases h1 : c = '<'
      · have h2 : ¬ (0 < (rest.takeWhile (fun x => x != '>')).length ∧
            (rest.takeWhile (fun x => x != '>')).length < rest.length) := by
          intro h2
          exact h (c :: rest) List.suffix_rfl ⟨h1, h2.1, h2.2⟩
        rw [goTags, if_pos h1, if_neg h2, hrec]
      · rw [goTags, if_neg h1, hrec]

theorem goDollars_of_noMatch : ∀ (fuel : Nat) (l : List Char), NoDollarMatch l →
    goDollars fuel l = l := by
  intro fuel
  induction fuel with
  | zero => intro l _; rfl
  | succ fuel ih =>
    intro l h
    match l with
    | [] => exact goDollars_nil _
    | c :: rest =>
      have hrec : goDollars fuel rest = rest :=
        ih rest (noDollarMatch_suffix h (List.suffix_cons c rest))
      have hm : ¬ (c = '$' ∧ 0 < (rest.takeWhile isWordChar).length) := by
        intro hm
        exact h (c :: rest) List.suffix_rfl ⟨hm.1, hm.2⟩
      rw [goDollars, if_neg hm, hrec]

/-!
## The script pass cannot match where the tag pass cannot -/

theorem ciEq_true_iff (p c : Char) :
    ciEq p c = true ↔ (c = p ∨ ('a' ≤ p ∧ p ≤ 'z' ∧ c.toNat + 32 = p.toNat)) := by
  simp [ciEq, Bool.or_eq_true, Bool.and_eq_true, decide_eq_true_eq, and_assoc]

theorem eq_of_ciEq_lt {c : Char} (h : ciEq '<' c = true) : c = '<' := by
  rcases (ciEq_true_iff '<' c).mp h with rfl | ⟨ha, -, -⟩
  · rfl
  · exact absurd ha (by decide)

theorem eq_of_ciEq_gt {c : Char} (h : ciEq '>' c = true) : c = '>' := by
  rcases (ciEq_true_iff '>' c).mp h with rfl | ⟨ha, -, -⟩
  · rfl
  · exact absurd ha (by decide)

theorem ne_gt_of_ciEq_s {c : Char} (h : ciEq 's' c = true) : c ≠ '>' := by
  rcases (ciEq_true_iff 's' c).mp h with rfl | ⟨-, -, hn⟩
  · decide
  · intro hc
    subst hc
    exact absurd hn (by decide)

theorem startsWithCI_mem : ∀ (pat l : List Char), startsWithCI pat l = true →
    ∀ p ∈ pat, ∃ c ∈ l, ciEq p c = true := by
  intro pat
  induction pat with
  | nil => intro l _ p hp; cases hp
  | cons p0 ps ih =>
    intro l h p hp
    match l with
    | [] => simp [startsWithCI] at h
    | c :: cs =>
      rw [startsWithCI, Bool.and_eq_true] at h
      rcases List.mem_cons.mp hp with rfl | hp'
      · exact ⟨c, List.mem_cons_self c cs, h.1⟩
      · obtain ⟨c', hc', hci⟩ := ih cs h.2 p hp'
        exact ⟨c', List.mem_cons_of_mem _ hc', hci⟩

theorem mem_gt_of_goScriptTail : ∀ (fuel : Nat) (l : List Char) (n : Nat),
    goScriptTail fuel l = some n → '>' ∈ l := by
  intro fuel
  induction fuel with
  | zero => intro l n h; cases h
  | succ fuel ih =>
    intro l n h
    by_cases hclose : startsWithCI scriptClosePat l
    · obtain ⟨c, hc, hci⟩ := startsWithCI_mem _ _ hclose '>' (by decide)
      rw [eq_of_ciEq_gt hci] at hc
      exact hc
    · match l with
      | [] =>
        rw [show goScriptTail (fuel + 1) ([] : List Char) = none from by
          simp [goScriptTail, startsWithCI, scriptClosePat]] at h
        cases h
      | c :: rest =>
        simp only [goScriptTail] at h
        rw [if_neg hclose] at h
        by_cases hc : c = '<'
        · rw [if_pos hc] at h
          obtain ⟨m, hm, -⟩ := Option.map_eq_some'.mp h
          exact List.mem_cons_of_mem _ ((List.drop_sublist _ _).mem (ih _ m hm))
        · rw [if_neg hc] at h
          cases h

/-- Wherever the script-block regex matches, the tag regex `/<[^>]+>/`
matches as well: the match starts `<s`/`<S` and a `>` (from the closing
`</script>`) occurs later. -/
theorem tagMatchAt_of_scriptMatch {l : List Char} {n : Nat}
    (h : scriptMatchLen l = some n) : TagMatchAt l := by
  rw [scriptMatchLen] at h
  by_cases hopen : startsWithCI scriptOpenPat l
  swap
  · rw [if_neg hopen] at h; cases h
  rw [if_pos hopen] at h
  by_cases hb : scriptBoundaryOk (l.drop 7)
  swap
  · rw [if_neg (by simpa using hb)] at h; cases h
  rw [if_pos (by simpa using hb)] at h
  obtain ⟨m, hm, -⟩ := Option.map_eq_some'.mp h
  have hgt0 : '>' ∈ scriptLoopStart l := mem_gt_of_goScriptTail _ _ _ hm
  match l, hopen with
  | c0 :: c1 :: rest2, hopen =>
    rw [scriptOpenPat, startsWithCI, Bool.and_eq_true] at hopen
    obtain ⟨hci0, hopen'⟩ := hopen
    rw [startsWithCI, Bool.and_eq_true] at hopen'
    obtain ⟨hci1, -⟩ := hopen'
    have hc0 : c0 = '<' := eq_of_ciEq_lt hci0
    have hc1 : c1 ≠ '>' := ne_gt_of_ciEq_s hci1
    have hgt : '>' ∈ c1 :: rest2 := by
      have h1 : '>' ∈ (c0 :: c1 :: rest2).drop 7 :=
        (List.drop_sublist _ _).mem hgt0
      have h2 : (c0 :: c1 :: rest2).drop 7 = (c1 :: rest2).drop 6 := by
        simp [List.drop_succ_cons]
      rw [h2] at h1
      exact (List.drop_sublist _ _).mem h1
    subst hc0
    refine ⟨rfl, ?_, ?_⟩
    · rw [List.takeWhile_cons, if_pos (bne_iff_ne.mpr hc1)]
      simp
    · exact takeWhile_length_lt_of_mem hgt (by decide)

theorem goScripts_of_noMatch : ∀ (fuel : Nat) (l : List Char), NoTagMatch l →
    goScripts fuel l = l := by
  intro fuel
  induction fuel with
  | zero => intro l _; rfl
  | succ fuel ih =>
    intro l h
    match l with
    | [] => exact goScripts_nil _
    | c :: rest =>
      cases hm : scriptMatchLen (c :: rest) with
      | some n => exact absurd (tagMatchAt_of_scriptMatch hm) (h (c :: rest) List.suffix_rfl)
      | none =>
        rw [goScripts, hm, ih rest (noTagMatch_suffix h (List.suffix_cons c rest))]

/-!
## Fixed-point structure of `sanitizeString` outputs -/

theorem noTagMatch_sanitizeString (s : List Char) : NoTagMatch (sanitizeString s) :=
  noTagMatch_goDollars _ _ le_rfl (noTagMatch_goTags _ _ le_rfl)

theorem noDollarMatch_sanitizeString (s : List Char) : NoDollarMatch (sanitizeString s) :=
  noDollarMatch_goDollars _ _ le_rfl

theorem exists_suffix_of_hasSubstr {pat l : List Char} (h : hasSubstr pat l = true) :
    ∃ t, t <:+ l ∧ listStartsWith pat t = true := by
  induction l with
  | nil => exact ⟨[], List.suffix_rfl, h⟩
  | cons c rest ih =>
    rw [hasSubstr, Bool.or_eq_true] at h
    rcases h with h | h
    · exact ⟨c :: rest, List.suffix_rfl, h⟩
    · obtain ⟨t, ht, hs⟩ := ih h
      exact ⟨t, ht.trans (List.suffix_cons c rest), hs⟩

theorem mem_of_listStartsWith : ∀ {pat l : List Char}, listStartsWith pat l = true →
    ∀ p ∈ pat, p ∈ l := by
  intro pat
  induction pat with
  | nil => intro l _ p hp; cases hp
  | cons p0 ps ih =>
    intro l h p hp
    match l with
    | [] => simp [listStartsWith] at h
    | c :: cs =>
      simp only [listStartsWith, Bool.and_eq_true, decide_eq_true_eq] at h
      rcases List.mem_cons.mp hp with rfl | hp'
      · exact h.1 ▸ List.mem_cons_self c cs
      · exact List.mem_cons_of_mem _ (ih h.2 p hp')

/-- A string that contains a substring of the shape `<q…>…` with `q ≠ '>'`
admits a `/<[^>]+>/` match at that position. -/
theorem tagMatchAt_of_startsWith {q : Char} {pat' t : List Char}
    (h : listStartsWith ('<' :: q :: pat') t = true) (hq : q ≠ '>') (hgt : '>' ∈ pat') :
    TagMatchAt t := by
  match t with
  | [] => simp [listStartsWith] at h
  | c0 :: u =>
    simp only [listStartsWith, Bool.and_eq_true, decide_eq_true_eq] at h
    obtain ⟨hc0, hu⟩ := h
    match u with
    | [] => simp [listStartsWith] at hu
    | c1 :: u2 =>
      simp only [listStartsWith, Bool.and_eq_true, decide_eq_true_eq] at hu
      obtain ⟨hc1, hu2⟩ := hu
      refine ⟨hc0.symm, ?_, ?_⟩
      · rw [List.takeWhile_cons, if_pos (bne_iff_ne.mpr (hc1 ▸ hq))]
        simp
      · have : '>' ∈ c1 :: u2 :=
          List.mem_cons_of_mem _ (mem_of_listStartsWith hu2 '>' hgt)
        exact takeWhile_length_lt_of_mem this (by decide)

/-- C9 — `sanitizeString` is idempotent: its output is a fixed point of all
three replacement passes, so sanitizing twice equals sanitizing once. -/
theorem sanitizeString_idempotent (s : List Char) :
    sanitizeString (sanitizeString s) = sanitizeString s := by
  have h2 := noTagMatch_sanitizeString s
  have h3 := noDollarMatch_sanitizeString s
  show removeDollars (removeTags (removeScripts (sanitizeString s))) = sanitizeString s
  rw [show removeScripts (sanitizeString s) = sanitizeString s from
      goScripts_of_noMatch _ _ h2,
    show removeTags (sanitizeString s) = sanitizeString s from
      goTags_of_noMatch _ _ h2]
  exact goDollars_of_noMatch _ _ h3

/-- C4 — for every string containing a `<script>…</script>` block, the
sanitized output contains neither the token `<script>` nor the token
`</script>` as a substring (in fact this holds for every input string). -/
theorem sanitizeString_removes_script_tokens (s : List Char)
    (_h : hasSubstr scriptOpenTok s = true ∧ hasSubstr scriptCloseTok s = true) :
    hasSubstr scriptOpenTok (sanitizeString s) = false ∧
    hasSubstr scriptCloseTok (sanitizeString s) = false := by
  have hnt := noTagMatch_sanitizeString s
  constructor
  · by_contra hc
    rw [Bool.not_eq_false] at hc
    obtain ⟨t, ht, hs⟩ := exists_suffix_of_hasSubstr hc
    have hs' : listStartsWith ('<' :: 's' :: "cript>".toList) t = true := by
      rw [show ('<' :: 's' :: "cript>".toList) = scriptOpenTok from by decide]
      exact hs
    exact hnt t ht (tagMatchAt_of_startsWith hs' (by decide) (by decide))
  · by_contra hc
    rw [Bool.not_eq_false] at hc
    obtain ⟨t, ht, hs⟩ := exists_suffix_of_hasSubstr hc
    have hs' : listStartsWith ('<' :: '/' :: "script>".toList) t = true := by
      rw [show ('<' :: '/' :: "script>".toList) = scriptCloseTok from by decide]
      exact hs
    exact hnt t ht (tagMatchAt_of_startsWith hs' (by decide) (by decide))

/-- Witness for C4 at the concrete input `"<script>alert(1)</script>"`. -/
theorem sanitizeString_removes_script_tokens_witness :
    (hasSubstr scriptOpenTok "<script>alert(1)</script>".toList = true ∧
      hasSubstr scriptCloseTok "<script>alert(1)</script>".toList = true) ∧
    (hasSubstr scriptOpenTok (sanitizeString "<script>alert(1)</script>".toList) = false ∧
      hasSubstr scriptCloseTok (sanitizeString "<script>alert(1)</script>".toList) = false) :=
  ⟨by decide, sanitizeString_removes_script_tokens _ (by decide)⟩

/-!
## Sanitization commutes with field lookup -/

theorem lookupFields_sanitizeFields : ∀ (fs : JSFields) (k : List Char),
    dollarKey k = false →
    lookupFields (sanitizeFields fs) k = sanitizeMember (lookupFields fs k)
  | .nil, _, _ => rfl
  | .cons k' v tl, k, hk => by
    by_cases hd : dollarKey k'
    · rw [sanitizeFields, if_pos hd]
      have hne : k' ≠ k := by
        intro he
        rw [he, hk] at hd
        cases hd
      rw [lookupFields, if_neg hne]
      exact lookupFields_sanitizeFields tl k hk
    · rw [sanitizeFields, if_neg hd]
      by_cases he : k' = k
      · rw [lookupFields, if_pos he, lookupFields, if_pos he]
      · rw [lookupFields, if_neg he, lookupFields, if_neg he]
        exact lookupFields_sanitizeFields tl k hk

theorem lookupJS_sanitize_vObj (fs : JSFields) (k : List Char)
    (hk : dollarKey k = false) :
    lookupJS (sanitizeValue (.vObj fs)) k = sanitizeMember (lookupFields fs k) := by
  rw [sanitizeValue, lookupJS]
  exact lookupFields_sanitizeFields fs k hk

theorem fieldKeys_sanitizeFields : ∀ (fs : JSFields),
    ∀ k ∈ fieldKeys (sanitizeFields fs), k ∈ fieldKeys fs
  | .nil => fun _ hk => hk
  | .cons k' v tl => by
    intro k hk
    by_cases hd : dollarKey k'
    · rw [sanitizeFields, if_pos hd] at hk
      exact List.mem_cons_of_mem _ (fieldKeys_sanitizeFields tl k hk)
    · rw [sanitizeFields, if_neg hd, fieldKeys] at hk
      rcases List.mem_cons.mp hk with rfl | hk'
      · exact List.mem_cons_self _ _
      · exact List.mem_cons_of_mem _ (fieldKeys_sanitizeFields tl k hk')

theorem lookupFields_of_not_mem : ∀ (fs : JSFields) (k : List Char),
    k ∉ fieldKeys fs → lookupFields fs k = .vUndefined
  | .nil, _, _ => rfl
  | .cons k' v tl, k, h => by
    rw [fieldKeys] at h
    have hne : k' ≠ k := fun he => h (he ▸ List.mem_cons_self _ _)
    rw [lookupFields, if_neg hne]
    exact lookupFields_of_not_mem tl k (fun hm => h (List.mem_cons_of_mem _ hm))

/-!
## Trimming and whitespace transfer -/

theorem jsTrim_eq_nil_iff (l : List Char) : jsTrim l = [] ↔ ∀ c ∈ l, isJsSpace c = true := by
  unfold jsTrim
  constructor
  · intro h c hc
    rw [List.reverse_eq_nil_iff, List.dropWhile_eq_nil_iff] at h
    have hsplit := @List.takeWhile_append_dropWhile _ isJsSpace l
    rw [← hsplit] at hc
    rcases List.mem_append.mp hc with h1 | h1
    · have h2 := List.mem_takeWhile_imp h1
      exact h2
    · exact h c (List.mem_reverse.mpr h1)
  · intro h
    have h1 : l.dropWhile isJsSpace = [] :=
      List.dropWhile_eq_nil_iff.mpr (fun a ha => h a ha)
    rw [h1]
    rfl

theorem titleBad_sanitizeMember_of_problem {t : JSValue} (h : TitleProblem t) :
    titleBad (sanitizeMember t) = true := by
  rcases h with rfl | h | ⟨s, rfl, hs⟩
  · rfl
  · cases t with
    | vStr s => exact absurd rfl (h s)
    | vNull => rfl
    | vUndefined => rfl
    | vBool b => cases b <;> rfl
    | vNum n => simp [sanitizeMember, titleBad]
    | vArr xs => simp [sanitizeMember, titleBad]
    | vObj fs => simp [sanitizeMember, titleBad]
  · have hall : ∀ c ∈ sanitizeString s, isJsSpace c = true := fun c hc =>
      (jsTrim_eq_nil_iff s).mp hs c (mem_sanitizeString hc)
    have htrim : jsTrim (sanitizeString s) = [] := (jsTrim_eq_nil_iff _).mpr hall
    simp [sanitizeMember, titleBad, htrim]

/-!
## C5, C6, C7 — the input and update validators -/

/-- C5 — every creation payload whose `title` is absent, not a string, or
empty after trimming is rejected by `validateTaskInput` with
`400 {error: "Validation failed"}` and a details report containing the
title-required message; the downstream handler is never invoked (the result
is a `reject`, not a `proceed`). -/
theorem validateTaskInput_rejects_bad_title (fs : JSFields)
    (h : TitleProblem (lookupJS (.vObj fs) titleKey)) :
    ∃ ds, validateTaskInput (.vObj fs) =
        .reject { status := 400, body := .errBody validationFailedMsg (some ds) none } ∧
      titleRequiredMsg ∈ ds := by
  have h' : TitleProblem (lookupFields fs titleKey) := h
  have htb : titleBad (lookupJS (sanitizeValue (.vObj fs)) titleKey) = true := by
    rw [lookupJS_sanitize_vObj fs titleKey (by decide)]
    exact titleBad_sanitizeMember_of_problem h'
  have hEeq : ∃ rest, inputErrors (sanitizeValue (.vObj fs)) = titleRequiredMsg :: rest := by
    rw [inputErrors, if_pos htb]
    exact ⟨_, rfl⟩
  obtain ⟨rest, hE⟩ := hEeq
  refine ⟨inputErrors (sanitizeValue (.vObj fs)), ?_, ?_⟩
  · rw [validateTaskInput, if_neg (by rw [hE]; simp)]
  · rw [hE]
    exact List.mem_cons_self _ _

/-- Witness for C5: the empty creation payload `{}` is rejected with the
title-required message. -/
theorem validateTaskInput_rejects_bad_title_witness :
    ∃ ds, validateTaskInput (.vObj .nil) =
        .reject { status := 400, body := .errBody validationFailedMsg (some ds) none } ∧
      titleRequiredMsg ∈ ds :=
  validateTaskInput_rejects_bad_title .nil (Or.inl rfl)

/-- C6 — when both the title rule and the status rule are violated,
`validateTaskInput` reports both messages together (no short-circuit), so the
details array has more than one entry. -/
theorem validateTaskInput_accumulates_errors (fs : JSFields)
    (ht : titleBad (lookupJS (sanitizeValue (.vObj fs)) titleKey) = true)
    (hs : statusBad (lookupJS (sanitizeValue (.vObj fs)) statusKey) = true) :
    ∃ ds, validateTaskInput (.vObj fs) =
        .reject { status := 400, body := .errBody validationFailedMsg (some ds) none } ∧
      titleRequiredMsg ∈ ds ∧ statusEnumMsg ∈ ds ∧ 1 < ds.length := by
  have hE : inputErrors (sanitizeValue (.vObj fs)) =
      [titleRequiredMsg] ++ [statusEnumMsg] ++
        (if descriptionBad (lookupJS (sanitizeValue (.vObj fs)) descriptionKey) then
          [descriptionTypeMsg] else []) := by
    rw [inputErrors, if_pos ht, if_pos hs]
  refine ⟨inputErrors (sanitizeValue (.vObj fs)), ?_, ?_, ?_, ?_⟩
  · rw [validateTaskInput, if_neg (by rw [hE]; simp)]
  · rw [hE]; simp
  · rw [hE]; simp
  · rw [hE]
    by_cases hd : descriptionBad (lookupJS (sanitizeValue (.vObj fs)) descriptionKey) <;>
      simp [hd]

/-- Witness for C6: the payload `{title: "", status: "invalid"}` from the
specification scenario. -/
theorem validateTaskInput_accumulates_errors_witness :
    ∃ ds, validateTaskInput
        (.vObj (.cons titleKey (.vStr "".toList)
          (.cons statusKey (.vStr "invalid".toList) .nil))) =
        .reject { status := 400, body := .errBody validationFailedMsg (some ds) none } ∧
      titleRequiredMsg ∈ ds ∧ statusEnumMsg ∈ ds ∧ 1 < ds.length :=
  validateTaskInput_accumulates_errors _ (by decide) (by decide)

/-- C7 — every update payload none of whose keys is `title`, `status` or
`description` (in particular the empty payload) is rejected by
`validateTaskUpdate` with `400 {error: "Validation failed"}` whose details
report is exactly the at-least-one-valid-field message; the downstream
handler is never invoked. -/
theorem validateTaskUpdate_rejects_unrecognized (fs : JSFields)
    (h : ∀ k ∈ fieldKeys fs, k ≠ titleKey ∧ k ≠ statusKey ∧ k ≠ descriptionKey) :
    validateTaskUpdate (.vObj fs) =
      .reject
        { status := 400,
          body := .errBody validationFailedMsg (some [atLeastOneFieldMsg]) none } := by
  have hT : titleKey ∉ fieldKeys fs := fun hm => (h _ hm).1 rfl
  have hS : statusKey ∉ fieldKeys fs := fun hm => (h _ hm).2.1 rfl
  have hD : descriptionKey ∉ fieldKeys fs := fun hm => (h _ hm).2.2 rfl
  have hlookT : lookupJS (sanitizeValue (.vObj fs)) titleKey = .vUndefined := by
    rw [lookupJS_sanitize_vObj fs titleKey (by decide), lookupFields_of_not_mem fs _ hT]
    rfl
  have hlookS : lookupJS (sanitizeValue (.vObj fs)) statusKey = .vUndefined := by
    rw [lookupJS_sanitize_vObj fs statusKey (by decide), lookupFields_of_not_mem fs _ hS]
    rfl
  have hlookD : lookupJS (sanitizeValue (.vObj fs)) descriptionKey = .vUndefined := by
    rw [lookupJS_sanitize_vObj fs descriptionKey (by decide),
      lookupFields_of_not_mem fs _ hD]
    rfl
  have hany : hasValidField (sanitizeValue (.vObj fs)) = false := by
    rw [hasValidField, List.any_eq_false]
    intro k hk
    rw [sanitizeValue, keysOf] at hk
    obtain ⟨h1, h2, h3⟩ := h k (fieldKeys_sanitizeFields fs k hk)
    simp [h1, h2, h3]
  have hE : updateErrors (sanitizeValue (.vObj fs)) = [atLeastOneFieldMsg] := by
    rw [updateErrors, hlookT, hlookS, hlookD,
      if_pos (by rw [hany]; rfl)]
    rfl
  rw [validateTaskUpdate, if_neg (by rw [hE]; simp), hE]

/-- Witness for C7: the empty update payload `{}`. -/
theorem validateTaskUpdate_rejects_unrecognized_witness :
    validateTaskUpdate (.vObj .nil) =
      .reject
        { status := 400,
          body := .errBody validationFailedMsg (some [atLeastOneFieldMsg]) none } :=
  validateTaskUpdate_rejects_unrecognized .nil (by intro k hk; cases hk)

/-!
## C2 — the identifier validator -/

/-- C2 counterexample — `"aaaaaaaaaaaa"` is not a 24-character hexadecimal
string, yet `validateObjectId` calls `next()` for it (no 400 response):
`mongoose.Types.ObjectId.isValid` also accepts 12-character strings. -/
theorem twelveCharId_passes_validator :
    is24Hex twelveCharId = false ∧ validateObjectId twelveCharId = none := by
  decide

/-- C2 amended — every path identifier rejected by
`mongoose.Types.ObjectId.isValid` (that is, neither a 24-character hex string
nor a 12-character single-byte string) receives
`400 {error: "Invalid task ID format"}`, and the route's response does not
depend on the store at all (no lookup is attempted). -/
theorem invalid_objectId_rejected_before_lookup (id : List Char)
    (h : objectIdIsValidStr id = false) :
    ∀ findById : StoreResult (Option JSValue),
      getTaskByIdRoute id findById =
        { status := 400, body := .errBody invalidIdMsg none none } := by
  intro r
  have hv : validateObjectId id =
      some { status := 400, body := .errBody invalidIdMsg none none } := by
    rw [validateObjectId, if_neg (by simp [h])]
  rw [getTaskByIdRoute.eq_def, hv]

/-- Witness for C2 (amended) at the concrete malformed identifier `"xyz"`. -/
theorem invalid_objectId_rejected_before_lookup_witness :
    objectIdIsValidStr "xyz".toList = false ∧
    getTaskByIdRoute "xyz".toList (.ok none) =
      { status := 400, body := .errBody invalidIdMsg none none } :=
  ⟨by decide, invalid_objectId_rejected_before_lookup _ (by decide) _⟩

/-!
## C3 — the shape of sanitized values -/

/-- C3 counterexample — the array `[1]` is not returned as an array: the
sanitizer rebuilds it as the plain object `{"0": 1}`. -/
theorem sanitizeValue_array_becomes_object :
    (sanitizeValue (.vArr (.cons (.vNum 1) .nil))).isArr = false := by decide

/-- C3 amended — non-string, non-object values and strings pass through
unchanged (strings unchanged because `typeof str !== 'object'`), plain
objects come back as plain objects, but arrays come back as plain
index-keyed objects, not arrays. -/
theorem sanitizeValue_shape :
    (∀ s, sanitizeValue (.vStr s) = .vStr s) ∧
    (∀ b, sanitizeValue (.vBool b) = .vBool b) ∧
    (∀ n, sanitizeValue (.vNum n) = .vNum n) ∧
    sanitizeValue .vNull = .vNull ∧
    sanitizeValue .vUndefined = .vUndefined ∧
    (∀ fs, (sanitizeValue (.vObj fs)).isObj = true) ∧
    (∀ xs, (sanitizeValue (.vArr xs)).isObj = true) :=
  ⟨fun _ => rfl, fun _ => rfl, fun _ => rfl, rfl, rfl, fun _ => rfl, fun _ => rfl⟩

/-!
## C8 — immutability of `id` and `createdAt` under updates -/

/-- C8 — for every persisted task and every update payload accepted by
`validateTaskUpdate` (result `proceed sb`), applying the store update with
the sanitized payload leaves `createdAt` and `id` unchanged, regardless of
any extra keys the payload carries. -/
theorem applyTaskUpdate_preserves_id_createdAt (t : Task) (body sb : JSValue)
    (_h : validateTaskUpdate body = .proceed sb) :
    (applyTaskUpdate t sb).createdAt = t.createdAt ∧ (applyTaskUpdate t sb).id = t.id :=
  ⟨rfl, rfl⟩

/-- Witness for C8: updating `sampleTask` with
`{title: "New title", createdAt: 999}`. -/
theorem applyTaskUpdate_preserves_id_createdAt_witness :
    validateTaskUpdate putBody = .proceed (sanitizeValue putBody) ∧
    ((applyTaskUpdate sampleTask (sanitizeValue putBody)).createdAt = sampleTask.createdAt ∧
      (applyTaskUpdate sampleTask (sanitizeValue putBody)).id = sampleTask.id) :=
  ⟨by decide,
    applyTaskUpdate_preserves_id_createdAt sampleTask putBody (sanitizeValue putBody)
      (by decide)⟩

/-!
## C10 — totality of the error normalizer -/

/-- C10 counterexample — on a duplicate-key failure whose `keyPattern`
property is absent, the error handler itself throws
(`Object.keys(undefined)`), sending no response. -/
theorem errorHandler_throws_without_keyPattern :
    errorHandler productionEnv dupNoKeyPatternErr = none := by decide

/-- C10 amended — for every failure object whose `keyPattern` is an actual
object whenever `code === 11000`, the error handler sends exactly one
response, whose body carries a string `error` field (and optional `details`
and `stack`). -/
theorem errorHandler_total_with_keyPattern (nodeEnv : List Char) (err : JsError)
    (h : err.code = some 11000 → err.keyPattern ≠ none) :
    ∃ st e d sk,
      errorHandler nodeEnv err = some { status := st, body := .errBody e d sk } := by
  cases hc : errorHandlerCore err with
  | some r =>
    exact ⟨r.1, r.2.1, r.2.2, _, by rw [errorHandler, hc]; rfl⟩
  | none =>
    exfalso
    rw [errorHandlerCore] at hc
    by_cases h1 : err.name = "ValidationError".toList
    · rw [if_pos h1] at hc; cases hc
    rw [if_neg h1] at hc
    by_cases h2 : err.name = "CastError".toList
    · rw [if_pos h2] at hc; cases hc
    rw [if_neg h2] at hc
    by_cases h3 : err.code = some 11000
    · rw [if_pos h3] at hc
      cases hkp : err.keyPattern with
      | none => exact h h3 hkp
      | some ks => rw [hkp] at hc; cases hc
    rw [if_neg h3] at hc
    by_cases h4 : err.name = "MongoNetworkError".toList ∨ err.name = "MongoTimeoutError".toList
    · rw [if_pos h4] at hc; cases hc
    rw [if_neg h4] at hc
    cases hc

/-- Witness for C10 (amended) at the concrete network failure `netErr`. -/
theorem errorHandler_total_with_keyPattern_witness :
    ∃ st e d sk,
      errorHandler productionEnv netErr = some { status := st, body := .errBody e d sk } :=
  errorHandler_total_with_keyPattern productionEnv netErr (by decide)

/-!
## C1 — persistence failures and the 503 contract -/

/-- C1 counterexample — a `MongoNetworkError` thrown during `POST /tasks`
(valid payload `{title: "Buy milk"}`) is caught by the route's own
`try/catch`, which answers `400 {error: err.message}` — not 503, and the
failure never reaches the error normalizer. -/
theorem post_network_error_is_400_not_503 :
    postTasksRoute okTitleBody (fun _ => .thrown netErr) =
      { status := 400, body := .errBody "connection lost".toList none none } := by
  decide

/-- C1 amended — a connectivity/timeout failure yields
`503 {error: "Service temporarily unavailable"}` (with no `stack` field
outside development mode) only on `GET /tasks`, the one route wrapped in
`asyncHandler`; on POST, GET by id, PUT and DELETE the route's local catch
answers `400 {error: err.message}` instead, and the error normalizer is not
involved. -/
theorem network_failure_route_behavior (nodeEnv : List Char) (err : JsError)
    (hname : err.name = "MongoNetworkError".toList ∨ err.name = "MongoTimeoutError".toList)
    (hcode : err.code ≠ some 11000) :
    (nodeEnv ≠ developmentEnv →
      getAllTasksRoute nodeEnv (.thrown err) =
        some { status := 503, body := .errBody unavailableMsg none none }) ∧
    (∀ body, (validateTaskInput body).isProceed = true →
      postTasksRoute body (fun _ => .thrown err) =
        { status := 400, body := .errBody err.message none none }) ∧
    (∀ id, objectIdIsValidStr id = true →
      getTaskByIdRoute id (.thrown err) =
        { status := 400, body := .errBody err.message none none }) ∧
    (∀ id body, objectIdIsValidStr id = true →
      (validateTaskUpdate body).isProceed = true →
      putTaskRoute id body (fun _ => .thrown err) =
        { status := 400, body := .errBody err.message none none }) ∧
    (∀ id, objectIdIsValidStr id = true →
      deleteTaskRoute id (.thrown err) =
        { status := 400, body := .errBody err.message none none }) := by
  have hcore : errorHandlerCore err = some (503, unavailableMsg, none) := by
    have hv : ¬ err.name = "ValidationError".toList := by
      rcases hname with hn | hn <;> rw [hn] <;> decide
    have hca : ¬ err.name = "CastError".toList := by
      rcases hname with hn | hn <;> rw [hn] <;> decide
    rw [errorHandlerCore, if_neg hv, if_neg hca, if_neg hcode, if_pos hname]
  refine ⟨?_, ?_, ?_, ?_, ?_⟩
  · intro hdev
    show errorHandler nodeEnv err = _
    rw [errorHandler, hcore]
    simp only [Option.map_some']
    rw [if_neg hdev]
  · intro body hbp
    cases hv : validateTaskInput body with
    | reject r => rw [hv] at hbp; simp [MWResult.isProceed] at hbp
    | proceed sb => rw [postTasksRoute, hv]
  · intro id hid
    have hv : validateObjectId id = none := by
      rw [validateObjectId, if_pos hid]
    rw [getTaskByIdRoute, hv]
  · intro id body hid hbp
    have hvi : validateObjectId id = none := by
      rw [validateObjectId, if_pos hid]
    cases hv : validateTaskUpdate body with
    | reject r => rw [hv] at hbp; simp [MWResult.isProceed] at hbp
    | proceed sb => rw [putTaskRoute, hvi, hv]
  · intro id hid
    have hv : validateObjectId id = none := by
      rw [validateObjectId, if_pos hid]
    rw [deleteTaskRoute, hv]

/-- Witness for C1 (amended): the network failure `netErr` on each route with
concrete valid inputs, in production mode. -/
theorem network_failure_route_behavior_witness :
    getAllTasksRoute productionEnv (.thrown netErr) =
      some { status := 503, body := .errBody unavailableMsg none none } ∧
    postTasksRoute okTitleBody (fun _ => .thrown netErr) =
      { status := 400, body := .errBody "connection lost".toList none none } ∧
    getTaskByIdRoute hex24Id (.thrown netErr) =
      { status := 400, body := .errBody "connection lost".toList none none } ∧
    putTaskRoute hex24Id okTitleBody (fun _ => .thrown netErr) =
      { status := 400, body := .errBody "connection lost".toList none none } ∧
    deleteTaskRoute hex24Id (.thrown netErr) =
      { status := 400, body := .errBody "connection lost".toList none none } := by
  have h := network_failure_route_behavior productionEnv netErr (Or.inl rfl) (by decide)
  exact ⟨h.1 (by decide), h.2.1 okTitleBody (by decide), h.2.2.1 hex24Id (by decide),
    h.2.2.2.1 hex24Id okTitleBody (by decide) (by decide), h.2.2.2.2 hex24Id (by decide)⟩

end TaskManager
